import Mathlib

/-!
# Verification of the hashgen tag-extraction pipeline

A shallow embedding, in Lean 4, of the core of `hashgen.py`: the tag
filter (`good_tag` and its helpers), the token normaliser
(`normalise_token`), the lemmatiser dispatch (`lemmatise_tag`), the
stopword-list builder (`build_stopword_list` / `stops_from_file`), the
occurrence aggregator (`update_data`), the selector
(`make_df` / `select_tags` / `get_tags_with_min` / `get_top_tags` / `get_n`),
and the result projector (`filter_data`).

Modelling conventions:
* Python dicts (which preserve insertion order) are embedded as
  association lists `List (String × α)` with first-match lookup and
  in-place overwrite.
* Python character classes are modelled over ASCII: `\w` is
  alphanumeric-or-underscore, `\s` and `str.strip` use
  `Char.isWhitespace`, `\d` is `Char.isDigit`, `str.lower` is
  `Char.toLower`.
* A Python function that can raise an exception is embedded with an
  `Option`/outcome codomain, `none` standing for the raised exception.
* The pandas data frame of `make_df` is embedded as a list of
  `(tag, count)` rows. The source's `sort_values(kind='quicksort')`
  guarantees only a count-descending permutation: equal-count rows land
  in incidental order on larger frames (numpy's introsort permutes
  equal keys above its insertion-sort cutoff). The embedding's
  `sortByCountDesc` is one admissible outcome — the stable one — so
  theorems here either state facts invariant under the tie order, or
  quantify existentially over a count-descending permutation; the one
  concrete tie evaluation uses a 2-row frame, below the cutoff, where
  numpy's sort does preserve row order and `nlargest(keep='first')`
  keeps the earlier row.
* External collaborators (the NLTK lemmatiser, the built-in stopword
  corpus) are parameters of the embedding.
-/

namespace Hashgen

/-! ## Dictionaries as association lists -/

/-- First-match lookup in an insertion-ordered dictionary. -/
def dictGet? (k : String) : List (String × α) → Option α
  | [] => none
  | (k', v) :: rest => if k' = k then some v else dictGet? k rest

/-- `d[k] = v`: overwrite in place if the key exists (keeping its
position, as Python dicts do), otherwise append at the end. -/
def dictSet (k : String) (v : α) : List (String × α) → List (String × α)
  | [] => [(k, v)]
  | (k', v') :: rest => if k' = k then (k, v) :: rest else (k', v') :: dictSet k v rest

theorem dictGet?_dictSet_self (k : String) (v : α) (m : List (String × α)) :
    dictGet? k (dictSet k v m) = some v := by
  induction m with
  | nil => simp [dictGet?, dictSet]
  | cons hd tl ih =>
    obtain ⟨k', v'⟩ := hd
    by_cases h : k' = k <;> simp [dictGet?, dictSet, h, ih]

theorem dictGet?_dictSet_ne (k k' : String) (hne : k' ≠ k) (v : α) (m : List (String × α)) :
    dictGet? k (dictSet k' v m) = dictGet? k m := by
  induction m with
  | nil => simp [dictGet?, dictSet, hne]
  | cons hd tl ih =>
    obtain ⟨k₀, v₀⟩ := hd
    by_cases h : k₀ = k'
    · subst h
      simp [dictGet?, dictSet, hne]
    · by_cases h2 : k₀ = k <;> simp [dictGet?, dictSet, h, h2, ih, Ne.symm hne]

/-! ## Character classes (ASCII model of Python's `re` behaviour) -/

/-- Python regex `\w` (ASCII fragment): letter, digit or underscore. -/
def isWordChar (c : Char) : Bool := c.isAlphanum || c == '_'

/-! ## Module constants of `hashgen.py` -/

/-- `POS_TO_LEMMATISE = ['n','v']` (hashgen.py line 14). -/
def POS_TO_LEMMATISE : List String := ["n", "v"]

/-- `BAD_HOMOGRAPHS = {'us':'PRP'}` (hashgen.py lines 16-18). -/
def BAD_HOMOGRAPHS : List (String × String) := [("us", "PRP")]

/-! ## Tag filter (hashgen.py lines 178-231) -/

/-- `bad_homograph`: `token in BAD_HOMOGRAPHS and BAD_HOMOGRAPHS[token] == pos`. -/
def bad_homograph (token pos : String) : Bool :=
  match dictGet? token BAD_HOMOGRAPHS with
  | some v => v == pos
  | none => false

/-- `only_numeric`: `len(re.sub(r'\d','',tag)) == 0` — dropping every
decimal digit leaves the empty string. -/
def only_numeric (tag : String) : Bool :=
  (tag.data.filter (fun c => !c.isDigit)).length == 0

/-- `in_stop_list`: `tag in stops`. The stopword set is modelled as a
list used only through membership. -/
def in_stop_list (tag : String) (stops : List String) : Bool :=
  stops.contains tag

/-- `good_tag`: acceptable iff not a bad homograph, not purely numeric
and not a stopword. -/
def good_tag (token pos : String) (stops : List String) : Bool :=
  !bad_homograph token pos && !only_numeric token && !in_stop_list token stops

/-! ## Normaliser and lemmatiser (hashgen.py lines 151-176) -/

/-- `normalise_token`: `re.sub(r'[^\w\s]','',token).lower()` — drop every
character that is neither a word character nor whitespace, then
lowercase. (Whitespace itself is kept by the regex.) -/
def normalise_token (token : String) : String :=
  String.mk ((token.data.filter (fun c => isWordChar c || c.isWhitespace)).map Char.toLower)

/-- `lemmatise_tag`: `pos_start = pos[0].lower()` followed by a
dispatch on `POS_TO_LEMMATISE`. On an empty `pos` the subscript
`pos[0]` raises `IndexError`, embedded as `none`. The external WordNet
lemmatiser is the parameter `lemm` (token, one-character hint ↦ lemma). -/
def lemmatise_tag (lemm : String → String → String) (token pos : String) : Option String :=
  match pos.data with
  | [] => none
  | c :: _ =>
    let pos_start := String.mk [c.toLower]
    if POS_TO_LEMMATISE.contains pos_start then some (lemm token pos_start) else some token

/-! ## Stopword set builder (hashgen.py lines 75-105) -/

/-- Python `str.strip()` (ASCII model): drop leading and trailing
whitespace. -/
def pyStrip (s : String) : String :=
  String.mk (((s.data.dropWhile Char.isWhitespace).reverse.dropWhile Char.isWhitespace).reverse)

/-- Python `str.rstrip('\n')`: drop trailing newline characters only. -/
def pyRstripNewline (s : String) : String :=
  String.mk ((s.data.reverse.dropWhile (fun c => c == '\n')).reverse)

/-- Python `s.startswith('#')`: the first character is `#`. -/
def pyStartsWithHash (s : String) : Bool :=
  match s.data with
  | c :: _ => c == '#'
  | [] => false

/-- The list-comprehension filter of `stops_from_file` (hashgen.py line
102): `not line.strip().startswith('#') and len(line.strip()) > 0`. -/
def keepStopLine (line : String) : Bool :=
  !pyStartsWithHash (pyStrip line) && decide (0 < (pyStrip line).length)

/-- The set built by `stops_from_file` from the file's lines (each line
as `readlines` yields it, trailing newline included):
`set([line.rstrip('\n') for line in open(...) if ...])`. The set is kept
as the comprehension's list, used only through membership. -/
def stops_from_file_lines (lines : List String) : List String :=
  (lines.filter keepStopLine).map pyRstripNewline

/-- `build_stopword_list`: the NLTK built-in English stopwords (an
external resource, passed as `builtin`) unioned with the custom file's
entries when a custom path was supplied (`some lines`); the union of
sets is modelled as list append, used only through membership. -/
def build_stopword_list (builtin : List String) (custom : Option (List String)) : List String :=
  match custom with
  | none => builtin
  | some lines => builtin ++ stops_from_file_lines lines

/-! ## Fatal error paths (hashgen.py lines 101-105 and 120-124)

`stops_from_file` and `get_files` each end in
`print("\"%s\" is not ..." % path); sys.exit(-1)`. Evaluating the
interpolation operand is a *name* lookup: Python resolves `path`
against the local scope, then the module's global scope. We embed the
outcome of such a branch, and the name environments actually in scope. -/

/-- Outcome of running one of hashgen's fatal-error branches. -/
inductive Outcome (α : Type) where
  | ok : α → Outcome α
  | fatal : String → Int → Outcome α
  | uncaught : String → Outcome α
  deriving Repr, DecidableEq

/-- The module-level names bound in `hashgen.py` (its imports, the two
constants and the function definitions, source lines 6-18 and every
`def`). -/
def hashgenGlobals : List String :=
  ["ap", "json", "nltk", "os", "pd", "re", "sys",
   "POS_TO_LEMMATISE", "BAD_HOMOGRAPHS",
   "main", "update_nltk", "parse_texts", "build_stopword_list",
   "stops_from_file", "get_files", "get_tags", "normalise_token",
   "lemmatise_tag", "good_tag", "bad_homograph", "only_numeric",
   "in_stop_list", "update_data", "make_df", "select_tags",
   "get_tags_with_min", "get_top_tags", "get_n", "write_tags",
   "filter_data", "parse_args"]

/-- The invalid-directory branch of `get_files` (lines 122-124):
`print("\"%s\" is not a valid directory.\nNo hashtags generated." % path)`
then `sys.exit(-1)`. The locals in scope are the parameters
`input_dir` and `extension`; `path` is resolved against them and the
module globals, and raises `NameError` when absent. -/
def get_files_invalid_dir (input_dir extension : String) : Outcome (List String) :=
  let localNames := ["input_dir", "extension"]
  if localNames.contains "path" || hashgenGlobals.contains "path" then
    -- unreachable on this source: kept to make the intended print explicit
    Outcome.fatal ("\x22" ++ input_dir ++ "\x22 is not a valid directory.\nNo hashtags generated.") (-1)
  else
    Outcome.uncaught "NameError"

/-- The invalid-file branch of `stops_from_file` (lines 103-105):
`print("\"%s\" is not a valid text file.\nNo hashtags generated." % path)`
then `sys.exit(-1)`. The only local in scope is the parameter
`custom_stopwords`; `path` raises `NameError`. -/
def stops_from_file_invalid (custom_stopwords : String) : Outcome (List String) :=
  let localNames := ["custom_stopwords"]
  if localNames.contains "path" || hashgenGlobals.contains "path" then
    Outcome.fatal ("\x22" ++ custom_stopwords ++ "\x22 is not a valid text file.\nNo hashtags generated.") (-1)
  else
    Outcome.uncaught "NameError"

/-! ## Occurrence aggregator (hashgen.py lines 233-262) -/

/-- The per-tag record held in `data`: `{'docs': [...], 'sents': [...]}`. -/
structure TagRecord where
  docs : List String
  sents : List String
  deriving Repr, DecidableEq

/-- `list.append(x) if x not in list else None`. -/
def appendIfAbsent (x : String) (xs : List String) : List String :=
  if xs.contains x then xs else xs ++ [x]

/-- `update_data(doc, sent, tag, data, counts)`. On an existing tag the
code appends to the record's lists and then runs `counts[tag] += 1`,
which raises `KeyError` (embedded as `none`) were `tag` missing from
`counts`; on a new tag both dicts gain the key. -/
def update_data (doc sent tag : String)
    (data : List (String × TagRecord)) (counts : List (String × Nat)) :
    Option (List (String × TagRecord) × List (String × Nat)) :=
  match dictGet? tag data with
  | some r =>
    match dictGet? tag counts with
    | some c =>
        some (dictSet tag ⟨appendIfAbsent doc r.docs, appendIfAbsent sent r.sents⟩ data,
              dictSet tag (c + 1) counts)
    | none => none
  | none =>
      some (dictSet tag ⟨[doc], [sent]⟩ data, dictSet tag 1 counts)

/-- The aggregation loop of `parse_texts`, flattened to the sequence of
`update_data(doc, sent, tag, ...)` calls it makes, starting from the
empty dictionaries `data, counts = {}, {}`. -/
def run_updates (events : List (String × String × String)) :
    Option (List (String × TagRecord) × List (String × Nat)) :=
  events.foldl
    (fun st e => st.bind (fun dc => update_data e.1 e.2.1 e.2.2 dc.1 dc.2))
    (some ([], []))

/-! ## Tag selector (hashgen.py lines 264-338) -/

/-- Stable insertion, descending by count: under the `foldr` below the
inserted row is the earlier row of the input, so it goes in front of
every row of equal or smaller count and ties keep input order. -/
def insertByCountDesc (x : String × Nat) : List (String × Nat) → List (String × Nat)
  | [] => [x]
  | y :: ys => if y.2 ≤ x.2 then x :: y :: ys else y :: insertByCountDesc x ys

/-- Stable sort by count, highest first: a concrete representative of
the count-descending permutations the source's unstable
`sort_values(kind='quicksort')` may produce (see the header note) —
exact for frames below numpy's insertion-sort cutoff, and used in
general theorems only through tie-order-robust facts or an existential
over count-descending permutations. -/
def sortByCountDesc (rows : List (String × Nat)) : List (String × Nat) :=
  rows.foldr insertByCountDesc []

/-- `make_df`: the data frame built from `counts.items()` (insertion
order) and sorted by count descending. The source fixes only the count
order of the rows; this model realises it by the stable representative
`sortByCountDesc` (see the header note). -/
def make_df (counts : List (String × Nat)) : List (String × Nat) :=
  sortByCountDesc counts

/-- `df.nlargest(n, 'count')` with the default `keep='first'`: the `n`
rows of largest count, ties resolved towards earlier rows. -/
def nlargest (n : Nat) (df : List (String × Nat)) : List (String × Nat) :=
  (sortByCountDesc df).take n

/-- `get_n`: under `'pct'`, clamp to `total` at 100 and floor
`limit * total / 100` otherwise (Python's `int(...)` on this
non-negative value is the floor); any other metric keeps `limit`. -/
def get_n (df : List (String × Nat)) (limit : Nat) (metric : String) : Nat :=
  let total := df.length
  if metric == "pct" then (if 100 ≤ limit then total else limit * total / 100) else limit

/-- `get_top_tags`: `df.nlargest(get_n(df, limit, metric), 'count')['tag'].tolist()`. -/
def get_top_tags (df : List (String × Nat)) (limit : Nat) (metric : String) : List String :=
  (nlargest (get_n df limit metric) df).map Prod.fst

/-- `get_tags_with_min`: `df[df['count'] >= limit]['tag'].tolist()`. -/
def get_tags_with_min (df : List (String × Nat)) (limit : Nat) : List String :=
  (df.filter (fun row => limit ≤ row.2)).map Prod.fst

/-- `select_tags`: dispatch on the metric string. -/
def select_tags (df : List (String × Nat)) (limit : Nat) (metric : String) : List String :=
  if metric == "min" then get_tags_with_min df limit else get_top_tags df limit metric

/-! ## Result projector (hashgen.py lines 370-386) -/

/-- `filter_data`: the dict comprehension
`{tag : data[tag] for tag in selected_tags}`; `data[tag]` raises
`KeyError` (embedded as `none`) on a tag absent from `data`. -/
def filter_data (selected : List String) (data : List (String × TagRecord)) :
    Option (List (String × TagRecord)) :=
  selected.foldl
    (fun acc t => acc.bind (fun m => (dictGet? t data).map (fun r => dictSet t r m)))
    (some [])

/-! ## Spec-side selection order (for the refinement claim on ties) -/

/-- Lexicographic (code-point) strict order on character lists: the
"tag string ascending" order of the spec's tie-break rule. -/
def charListLt : List Char → List Char → Bool
  | [], [] => false
  | [], _ :: _ => true
  | _ :: _, [] => false
  | a :: as, b :: bs => if a < b then true else if b < a then false else charListLt as bs

/-- Modelled from the spec: insertion step of the spec's deterministic
order — count descending with tag string ascending as secondary key. -/
def insertSpecOrder (x : String × Nat) : List (String × Nat) → List (String × Nat)
  | [] => [x]
  | y :: ys =>
    if y.2 < x.2 ∨ (y.2 = x.2 ∧ charListLt x.1.data y.1.data = true) then x :: y :: ys
    else y :: insertSpecOrder x ys

/-- Modelled from the spec: sort by count descending, tag ascending. -/
def sortSpecOrder (rows : List (String × Nat)) : List (String × Nat) :=
  rows.foldr insertSpecOrder []

/-- Modelled from the spec: the Absolute/Percentage selection the spec's
tie-break rule prescribes — sort by (count desc, tag asc) and take the
top effective `n`. -/
def select_spec (counts : List (String × Nat)) (n : Nat) : List String :=
  ((sortSpecOrder counts).take n).map Prod.fst

/-! ## Aggregator invariant -/

/-- The invariant the aggregation loop maintains over `data`/`counts`:
both dictionaries carry the same keys, every count is at least 1 and at
least the length of either location list, and the location lists are
duplicate-free. -/
def Inv (data : List (String × TagRecord)) (counts : List (String × Nat)) : Prop :=
  (∀ t, (dictGet? t data).isSome ↔ (dictGet? t counts).isSome) ∧
  (∀ t r c, dictGet? t data = some r → dictGet? t counts = some c →
    1 ≤ c ∧ r.docs.length ≤ c ∧ r.sents.length ≤ c ∧ r.docs.Nodup ∧ r.sents.Nodup)

/-! ## Tag extraction (hashgen.py lines 126-149) -/

/-- `get_tags`, on the annotated token list produced by
`nltk.pos_tag` (the external annotator): normalise each token, skip it
when normalisation left nothing, lemmatise the rest and keep the good
tags, in order. An `IndexError` escaping `lemmatise_tag` aborts the
whole call (`none`). -/
def get_tags (lemm : String → String → String) (stops : List String) :
    List (String × String) → Option (List String)
  | [] => some []
  | (tok, pos) :: rest =>
    let token := normalise_token tok
    if 0 < token.length then
      match lemmatise_tag lemm token pos with
      | none => none
      | some tag =>
        (get_tags lemm stops rest).map
          (fun ts => if good_tag tag pos stops then tag :: ts else ts)
    else
      get_tags lemm stops rest

/-! ## Filter lemmas and the C1 theorem -/

theorem bad_homograph_iff (t p : String) :
    bad_homograph t p = true ↔ t = "us" ∧ p = "PRP" := by
  by_cases h : "us" = t
  · subst h
    rw [show bad_homograph "us" p = ("PRP" == p) from rfl]
    simp only [beq_iff_eq]
    constructor
    · intro h'
      exact ⟨by trivial, h'.symm⟩
    · intro h'
      exact h'.2.symm
  · have hget : dictGet? t BAD_HOMOGRAPHS = none := by
      simp [dictGet?, BAD_HOMOGRAPHS, h]
    rw [show bad_homograph t p =
          (match dictGet? t BAD_HOMOGRAPHS with
           | some v => v == p
           | none => false) from rfl,
        hget]
    simp only [Bool.false_eq_true, false_iff]
    rintro ⟨h', _⟩
    exact h h'.symm

theorem only_numeric_iff (t : String) :
    only_numeric t = true ↔ ∀ c ∈ t.data, c.isDigit = true := by
  simp [only_numeric, List.length_eq_zero, List.filter_eq_nil_iff]

theorem in_stop_list_iff (t : String) (S : List String) :
    in_stop_list t S = true ↔ t ∈ S := by
  simp [in_stop_list]

/-- C1: `good_tag` accepts a (tag, part-of-speech) pair against a
stopword set iff none of the three rejection conditions holds: the pair
is not the single bad-homograph entry ("us" as "PRP"), the tag does not
consist of decimal digits only (deleting every digit leaves the empty
string), and the tag is not a stopword; in particular "us" tagged "PRP"
is rejected while "us" tagged "NNP" is accepted. -/
theorem good_tag_spec (t p : String) (S : List String) :
    (good_tag t p S = true ↔
      ¬(t = "us" ∧ p = "PRP") ∧ ¬(∀ c ∈ t.data, c.isDigit = true) ∧ t ∉ S) ∧
    good_tag "us" "PRP" [] = false ∧ good_tag "us" "NNP" [] = true := by
  refine ⟨?_, by decide, by decide⟩
  rw [show good_tag t p S =
        (!bad_homograph t p && !only_numeric t && !in_stop_list t S) from rfl]
  simp only [Bool.and_eq_true, Bool.not_eq_true']
  rw [← Bool.not_eq_true (bad_homograph t p), ← Bool.not_eq_true (only_numeric t),
      ← Bool.not_eq_true (in_stop_list t S)]
  rw [bad_homograph_iff, only_numeric_iff, in_stop_list_iff]
  tauto

/-! ## Character lemmas for the normaliser -/

theorem uint32_le_iff_toNat_le (a b : UInt32) : a ≤ b ↔ a.toNat ≤ b.toNat := by
  simp [UInt32.le_def, BitVec.le_def, UInt32.toNat]

theorem char_isUpper_iff (c : Char) :
    c.isUpper = true ↔ 65 ≤ c.toNat ∧ c.toNat ≤ 90 := by
  show (c.val ≥ 65 && c.val ≤ 90) = true ↔ _
  rw [Bool.and_eq_true, decide_eq_true_iff, decide_eq_true_iff,
      ge_iff_le, uint32_le_iff_toNat_le, uint32_le_iff_toNat_le]
  constructor
  · rintro ⟨h1, h2⟩
    exact ⟨h1, h2⟩
  · rintro ⟨h1, h2⟩
    exact ⟨h1, h2⟩

theorem char_toLower_of_upper (c : Char) (h : 65 ≤ c.toNat ∧ c.toNat ≤ 90) :
    c.toLower = Char.ofNat (c.toNat + 32) := by
  rw [Char.toLower, if_pos]
  exact ⟨h.1, h.2⟩

theorem char_toLower_of_not_upper (c : Char) (h : ¬(65 ≤ c.toNat ∧ c.toNat ≤ 90)) :
    c.toLower = c := by
  rw [Char.toLower, if_neg]
  exact h

theorem char_toLower_not_upper (c : Char) : (c.toLower).isUpper = false := by
  by_cases h : 65 ≤ c.toNat ∧ c.toNat ≤ 90
  · rw [char_toLower_of_upper c h]
    have key : ∀ n, n < 91 → 65 ≤ n → (Char.ofNat (n + 32)).isUpper = false := by decide
    exact key _ (Nat.lt_succ_of_le h.2) h.1
  · rw [char_toLower_of_not_upper c h]
    cases hu : c.isUpper with
    | false => rfl
    | true => exact absurd ((char_isUpper_iff c).mp hu) h

theorem char_toLower_word_or_space (c : Char)
    (h : (isWordChar c || c.isWhitespace) = true) :
    (isWordChar c.toLower || c.toLower.isWhitespace) = true := by
  by_cases hc : 65 ≤ c.toNat ∧ c.toNat ≤ 90
  · rw [char_toLower_of_upper c hc]
    have key : ∀ n, n < 91 → 65 ≤ n →
        (isWordChar (Char.ofNat (n + 32)) || (Char.ofNat (n + 32)).isWhitespace) = true := by
      decide
    exact key _ (Nat.lt_succ_of_le hc.2) hc.1
  · rw [char_toLower_of_not_upper c hc]
    exact h

/-! ## C6: the normaliser keeps whitespace -/

/-- C6 counterexample: the claim says `normalise_token` removes
whitespace and yields alphanumeric-only strings, but the regex
`[^\w\s]` keeps whitespace: on the token "a b" the result is "a b",
which contains a space, not an alphanumeric character. -/
theorem normalise_token_cex :
    normalise_token "a b" = "a b" ∧
    ' ' ∈ (normalise_token "a b").data ∧ Char.isAlphanum ' ' = false := by
  refine ⟨by decide, by decide, by decide⟩

/-- C6 (amended): `normalise_token` drops every character that is
neither a word character nor whitespace and lowercases the rest, so
every character of the result is a word character or whitespace (not
necessarily alphanumeric: whitespace and underscores survive) and none
is an uppercase ASCII letter; a token whose normalisation is empty is
discarded upstream — it contributes nothing to `get_tags`. -/
theorem normalise_token_amended (t : String) :
    (∀ c ∈ (normalise_token t).data,
      (isWordChar c || c.isWhitespace) = true ∧ c.isUpper = false) ∧
    (normalise_token t = "" →
      ∀ (lemm : String → String → String) (stops : List String) (pos : String)
        (rest : List (String × String)),
        get_tags lemm stops ((t, pos) :: rest) = get_tags lemm stops rest) := by
  constructor
  · intro c hc
    have hc' : c ∈ (t.data.filter (fun c => isWordChar c || c.isWhitespace)).map Char.toLower := hc
    obtain ⟨c', hmem, rfl⟩ := List.mem_map.mp hc'
    have hp : (isWordChar c' || c'.isWhitespace) = true := (List.mem_filter.mp hmem).2
    exact ⟨char_toLower_word_or_space c' hp, char_toLower_not_upper c'⟩
  · intro h lemm stops pos rest
    simp only [get_tags, h]
    simp

/-- Witness for the amended C6 at concrete inputs: the token "!!"
normalises to the empty string and is skipped by `get_tags`. -/
theorem normalise_token_amended_witness :
    (∀ c ∈ (normalise_token "!!").data,
      (isWordChar c || c.isWhitespace) = true ∧ c.isUpper = false) ∧
    get_tags (fun t _ => t) [] [("!!", "NN")] = get_tags (fun t _ => t) [] [] :=
  ⟨(normalise_token_amended "!!").1,
   (normalise_token_amended "!!").2 (by decide) (fun t _ => t) [] "NN" []⟩

/-! ## C7: the lemmatiser dispatch crashes on an empty POS tag -/

/-- C7 counterexample: on the empty part-of-speech string the claim says
the token is returned unchanged, but `pos[0]` raises `IndexError`
(embedded as `none`), so no token is returned at all. -/
theorem lemmatise_tag_cex :
    lemmatise_tag (fun t _ => t) "cat" "" = none ∧
    (none : Option String) ≠ some "cat" := by
  refine ⟨rfl, by decide⟩

theorem string_mk_singleton_eq (c : Char) (d : Char) :
    String.mk [c] = String.mk [d] ↔ c = d := by
  constructor
  · intro h
    have := congrArg String.data h
    simpa using this
  · intro h
    rw [h]

/-- C7 (amended): `lemmatise_tag` delegates to the external lemmatiser
with the one-character hint exactly when the part-of-speech string is
nonempty and its first character, lowercased, is 'n' or 'v'; for any
other nonempty part-of-speech it returns the token unchanged; on the
empty part-of-speech it raises `IndexError` instead of returning the
token. -/
theorem lemmatise_tag_amended (lemm : String → String → String) (token pos : String) :
    (pos = "" → lemmatise_tag lemm token pos = none) ∧
    (∀ c cs, pos.data = c :: cs →
      lemmatise_tag lemm token pos =
        if c.toLower = 'n' ∨ c.toLower = 'v'
        then some (lemm token (String.mk [c.toLower]))
        else some token) := by
  constructor
  · intro h
    subst h
    rfl
  · intro c cs h
    have hstep : lemmatise_tag lemm token pos =
        (if POS_TO_LEMMATISE.contains (String.mk [c.toLower]) = true
         then some (lemm token (String.mk [c.toLower])) else some token) := by
      rw [lemmatise_tag, h]
    have hmem : POS_TO_LEMMATISE.contains (String.mk [c.toLower]) = true ↔
        (c.toLower = 'n' ∨ c.toLower = 'v') := by
      simp [POS_TO_LEMMATISE, String.ext_iff]
    rw [hstep]
    by_cases hd : c.toLower = 'n' ∨ c.toLower = 'v'
    · rw [if_pos (hmem.mpr hd), if_pos hd]
    · rw [if_neg (fun hcon => hd (hmem.mp hcon)), if_neg hd]

/-- Witness for the amended C7 at concrete inputs: the empty POS raises;
the adjective tag "JJ" leaves the token unchanged; the noun tag "NN"
delegates with hint "n". -/
theorem lemmatise_tag_amended_witness :
    lemmatise_tag (fun t _ => t ++ "!") "cat" "" = none ∧
    lemmatise_tag (fun t _ => t ++ "!") "cat" "JJ" = some "cat" ∧
    lemmatise_tag (fun t _ => t ++ "!") "cat" "NN" = some "cat!" := by
  refine ⟨(lemmatise_tag_amended (fun t _ => t ++ "!") "cat" "").1 rfl, ?_, ?_⟩
  · have h := (lemmatise_tag_amended (fun t _ => t ++ "!") "cat" "JJ").2 'J' ['J'] rfl
    rw [h, if_neg (by decide)]
  · have h := (lemmatise_tag_amended (fun t _ => t ++ "!") "cat" "NN").2 'N' ['N'] rfl
    rw [h, if_pos (by decide)]
    rfl

/-! ## Sorting lemmas for the selector -/

theorem insertByCountDesc_perm (x : String × Nat) (l : List (String × Nat)) :
    (insertByCountDesc x l).Perm (x :: l) := by
  induction l with
  | nil => exact List.Perm.refl _
  | cons y ys ih =>
    rw [insertByCountDesc]
    by_cases h : y.2 ≤ x.2
    · rw [if_pos h]
    · rw [if_neg h]
      exact (ih.cons y).trans (List.Perm.swap x y ys)

theorem sortByCountDesc_perm (l : List (String × Nat)) : (sortByCountDesc l).Perm l := by
  induction l with
  | nil => exact List.Perm.refl _
  | cons x xs ih =>
    exact (insertByCountDesc_perm x (sortByCountDesc xs)).trans (ih.cons x)

theorem insertByCountDesc_pairwise (x : String × Nat) (l : List (String × Nat))
    (h : List.Pairwise (fun a b : String × Nat => b.2 ≤ a.2) l) :
    List.Pairwise (fun a b : String × Nat => b.2 ≤ a.2) (insertByCountDesc x l) := by
  induction l with
  | nil => simp [insertByCountDesc]
  | cons y ys ih =>
    rw [insertByCountDesc]
    by_cases hy : y.2 ≤ x.2
    · rw [if_pos hy]
      refine List.Pairwise.cons ?_ h
      intro b hb
      rcases List.mem_cons.mp hb with rfl | hb'
      · exact hy
      · exact le_trans (List.rel_of_pairwise_cons h hb') hy
    · rw [if_neg hy]
      refine List.Pairwise.cons ?_ (ih h.of_cons)
      intro b hb
      have hb' := (insertByCountDesc_perm x ys).mem_iff.mp hb
      rcases List.mem_cons.mp hb' with rfl | hb''
      · exact le_of_lt (lt_of_not_le hy)
      · exact List.rel_of_pairwise_cons h hb''

theorem sortByCountDesc_pairwise (l : List (String × Nat)) :
    List.Pairwise (fun a b : String × Nat => b.2 ≤ a.2) (sortByCountDesc l) := by
  induction l with
  | nil => simp [sortByCountDesc]
  | cons x xs ih => exact insertByCountDesc_pairwise x (sortByCountDesc xs) ih

theorem sortByCountDesc_of_pairwise (l : List (String × Nat))
    (h : List.Pairwise (fun a b : String × Nat => b.2 ≤ a.2) l) :
    sortByCountDesc l = l := by
  induction l with
  | nil => rfl
  | cons x xs ih =>
    have hxs := ih h.of_cons
    show insertByCountDesc x (sortByCountDesc xs) = x :: xs
    rw [hxs]
    cases xs with
    | nil => rfl
    | cons y ys =>
      rw [insertByCountDesc, if_pos (List.rel_of_pairwise_cons h (List.mem_cons_self y ys))]

theorem sortByCountDesc_idem (l : List (String × Nat)) :
    sortByCountDesc (sortByCountDesc l) = sortByCountDesc l :=
  sortByCountDesc_of_pairwise _ (sortByCountDesc_pairwise l)

theorem sortByCountDesc_dominance (l : List (String × Nat)) (n : Nat) :
    ∀ p ∈ (sortByCountDesc l).take n, ∀ q ∈ (sortByCountDesc l).drop n, q.2 ≤ p.2 := by
  have hs := sortByCountDesc_pairwise l
  rw [← List.take_append_drop n (sortByCountDesc l)] at hs
  have hsplit := List.pairwise_append.mp hs
  exact fun p hp q hq => hsplit.2.2 p hp q hq

theorem select_abs_eq (counts : List (String × Nat)) (limit : Nat) :
    select_tags (make_df counts) limit "abs" =
      ((sortByCountDesc counts).take limit).map Prod.fst := by
  simp [select_tags, get_top_tags, nlargest, get_n, make_df, sortByCountDesc_idem]

theorem select_min_eq (counts : List (String × Nat)) (limit : Nat) :
    select_tags (make_df counts) limit "min" =
      ((sortByCountDesc counts).filter (fun row => limit ≤ row.2)).map Prod.fst := by
  simp [select_tags, get_tags_with_min, make_df]

/-! ## C3: Absolute and Percentage selection -/

/-- C3: under the Absolute metric the selection is the top-`limit` rows
of the count-descending order — its length is `min limit total`, it is
all tags when fewer than `limit` exist, it is empty at `limit = 0`, and
every selected count dominates every unselected one; under the
Percentage metric the selection equals Absolute selection with
effective N = `total` when `limit ≥ 100` and
`⌊limit·total/100⌋` otherwise. -/
theorem select_abs_pct_spec (counts : List (String × Nat)) (limit : Nat) :
    (select_tags (make_df counts) limit "abs" =
      ((sortByCountDesc counts).take limit).map Prod.fst) ∧
    (select_tags (make_df counts) limit "abs").length = min limit counts.length ∧
    (counts.length ≤ limit →
      (select_tags (make_df counts) limit "abs").Perm (counts.map Prod.fst)) ∧
    select_tags (make_df counts) 0 "abs" = [] ∧
    (∀ p ∈ (sortByCountDesc counts).take limit,
      ∀ q ∈ (sortByCountDesc counts).drop limit, q.2 ≤ p.2) ∧
    select_tags (make_df counts) limit "pct" =
      select_tags (make_df counts)
        (if 100 ≤ limit then counts.length else limit * counts.length / 100) "abs" := by
  refine ⟨select_abs_eq counts limit, ?_, ?_, ?_, sortByCountDesc_dominance counts limit, ?_⟩
  · rw [select_abs_eq]
    simp [(sortByCountDesc_perm counts).length_eq]
  · intro h
    rw [select_abs_eq]
    rw [List.take_of_length_le (by rw [(sortByCountDesc_perm counts).length_eq]; exact h)]
    exact (sortByCountDesc_perm counts).map Prod.fst
  · rw [select_abs_eq]
    simp
  · have hn : get_n (make_df counts) limit "pct" =
        (if 100 ≤ limit then counts.length else limit * counts.length / 100) := by
      simp [get_n, make_df, (sortByCountDesc_perm counts).length_eq]
    have hL : select_tags (make_df counts) limit "pct" =
        ((sortByCountDesc counts).take (get_n (make_df counts) limit "pct")).map Prod.fst := by
      rw [select_tags, if_neg (by decide), get_top_tags, nlargest, make_df, sortByCountDesc_idem]
    rw [hL, hn, select_abs_eq]

/-- Witness for C3: with the single count {cat: 3} and limit 2 the
Absolute selection returns all tags. -/
theorem select_abs_pct_spec_witness :
    (select_tags (make_df [("cat", 3)]) 2 "abs").Perm ([("cat", 3)].map Prod.fst) :=
  (select_abs_pct_spec [("cat", 3)] 2).2.2.1 (by decide)

/-! ## C4: Minimum selection -/

/-- C4: under the Minimum metric the selection is exactly the tags
whose count is at least `limit`, and `limit = 0` selects every tag. -/
theorem select_min_spec (counts : List (String × Nat)) (limit : Nat) :
    (∀ t, t ∈ select_tags (make_df counts) limit "min" ↔
      ∃ c, (t, c) ∈ counts ∧ limit ≤ c) ∧
    (select_tags (make_df counts) 0 "min").Perm (counts.map Prod.fst) := by
  constructor
  · intro t
    rw [select_min_eq]
    simp only [List.mem_map, List.mem_filter]
    constructor
    · rintro ⟨⟨t', c⟩, ⟨hmem, hc⟩, rfl⟩
      exact ⟨c, (sortByCountDesc_perm counts).subset hmem, by simpa using hc⟩
    · rintro ⟨c, hmem, hc⟩
      exact ⟨(t, c), ⟨(sortByCountDesc_perm counts).symm.subset hmem, by simpa using hc⟩, rfl⟩
  · rw [select_min_eq]
    have hall : (sortByCountDesc counts).filter
        (fun row : String × Nat => decide (0 ≤ row.2)) = sortByCountDesc counts := by
      apply List.filter_eq_self.mpr
      intro a _
      simp
    rw [hall]
    exact (sortByCountDesc_perm counts).map Prod.fst

/-! ## C5: tie-breaking at the selection boundary -/

/-- C5 counterexample: with counts {b: 1, a: 1} (insertion order b
first) and Absolute limit 1, the code keeps the earlier data-frame row
and returns ["b"], while the spec's (count desc, tag asc) rule returns
["a"]: no alphabetical secondary key is applied. -/
theorem select_tiebreak_cex :
    select_tags (make_df [("b", 1), ("a", 1)]) 1 "abs" = ["b"] ∧
    select_spec [("b", 1), ("a", 1)] 1 = ["a"] ∧
    select_tags (make_df [("b", 1), ("a", 1)]) 1 "abs" ≠ select_spec [("b", 1), ("a", 1)] 1 := by
  refine ⟨by decide, by decide, by decide⟩

/-- C5 (amended): for Absolute/Percentage metrics the selection is the
top effective-N prefix of *some* count-descending ordering of the
counts rows — so its counts dominate the unselected ones — but no
tag-string-ascending secondary key is applied: ties at the selection
boundary are left to the data frame's incidental row order (pandas'
unstable sort, then `nlargest` keeping earlier rows), not to the spec's
deterministic rule. The existential absorbs exactly the tie freedom the
source's `sort_values(kind='quicksort')` leaves open. -/
theorem select_tiebreak_amended (counts : List (String × Nat)) (limit : Nat) (metric : String)
    (hm : metric ≠ "min") :
    ∃ rows : List (String × Nat),
      rows.Perm counts ∧
      List.Pairwise (fun a b : String × Nat => b.2 ≤ a.2) rows ∧
      select_tags (make_df counts) limit metric =
        (rows.take (get_n (make_df counts) limit metric)).map Prod.fst := by
  refine ⟨sortByCountDesc counts, sortByCountDesc_perm counts,
    sortByCountDesc_pairwise counts, ?_⟩
  have hb : (metric == "min") = false := by
    simp [hm]
  simp [select_tags, hb, get_top_tags, nlargest, make_df, sortByCountDesc_idem]

/-- Witness for the amended C5 at the counterexample's input. -/
theorem select_tiebreak_amended_witness :
    ∃ rows : List (String × Nat),
      rows.Perm [("b", 1), ("a", 1)] ∧
      List.Pairwise (fun a b : String × Nat => b.2 ≤ a.2) rows ∧
      select_tags (make_df [("b", 1), ("a", 1)]) 1 "abs" =
        (rows.take (get_n (make_df [("b", 1), ("a", 1)]) 1 "abs")).map Prod.fst :=
  select_tiebreak_amended [("b", 1), ("a", 1)] 1 "abs" (by decide)

/-! ## C2: the aggregator update -/

/-- C2: `update_data` creates a fresh tag's record with count 1 and
singleton location lists; on an existing tag it increments the count
unconditionally and appends the document/sentence only when absent,
at the end (preserving first-appearance order), leaving every other
tag untouched; two updates with the same triple from a fresh state
leave count 2 and single entries. -/
theorem update_data_spec (doc sent tag : String)
    (data : List (String × TagRecord)) (counts : List (String × Nat)) :
    (dictGet? tag data = none →
      ∃ d' c', update_data doc sent tag data counts = some (d', c') ∧
        dictGet? tag d' = some ⟨[doc], [sent]⟩ ∧ dictGet? tag c' = some 1 ∧
        (∀ t, t ≠ tag → dictGet? t d' = dictGet? t data ∧ dictGet? t c' = dictGet? t counts)) ∧
    (∀ r c, dictGet? tag data = some r → dictGet? tag counts = some c →
      ∃ d' c', update_data doc sent tag data counts = some (d', c') ∧
        dictGet? tag c' = some (c + 1) ∧
        dictGet? tag d' = some ⟨if doc ∈ r.docs then r.docs else r.docs ++ [doc],
                                if sent ∈ r.sents then r.sents else r.sents ++ [sent]⟩ ∧
        (∀ t, t ≠ tag → dictGet? t d' = dictGet? t data ∧ dictGet? t c' = dictGet? t counts)) ∧
    (dictGet? tag data = none →
      ∃ d1 c1 d2 c2, update_data doc sent tag data counts = some (d1, c1) ∧
        update_data doc sent tag d1 c1 = some (d2, c2) ∧
        dictGet? tag c2 = some 2 ∧ dictGet? tag d2 = some ⟨[doc], [sent]⟩) := by
  have happ : ∀ (x : String) (xs : List String),
      appendIfAbsent x xs = if x ∈ xs then xs else xs ++ [x] := by
    intro x xs
    by_cases h : x ∈ xs <;> simp [appendIfAbsent, h]
  refine ⟨?_, ?_, ?_⟩
  · intro h
    refine ⟨_, _, by rw [update_data, h], ?_, ?_, ?_⟩
    · exact dictGet?_dictSet_self tag _ data
    · exact dictGet?_dictSet_self tag _ counts
    · intro t ht
      exact ⟨dictGet?_dictSet_ne t tag (Ne.symm ht) _ data, dictGet?_dictSet_ne t tag (Ne.symm ht) _ counts⟩
  · intro r c hd hc
    refine ⟨_, _, by rw [update_data, hd, hc], ?_, ?_, ?_⟩
    · exact dictGet?_dictSet_self tag _ counts
    · rw [dictGet?_dictSet_self tag _ data, happ, happ]
    · intro t ht
      exact ⟨dictGet?_dictSet_ne t tag (Ne.symm ht) _ data, dictGet?_dictSet_ne t tag (Ne.symm ht) _ counts⟩
  · intro h
    have h1 : update_data doc sent tag data counts =
        some (dictSet tag ⟨[doc], [sent]⟩ data, dictSet tag 1 counts) := by
      rw [update_data, h]
    have hd1 : dictGet? tag (dictSet tag (⟨[doc], [sent]⟩ : TagRecord) data) =
        some ⟨[doc], [sent]⟩ := dictGet?_dictSet_self tag _ data
    have hc1 : dictGet? tag (dictSet tag 1 counts) = some 1 :=
      dictGet?_dictSet_self tag _ counts
    have h2 : update_data doc sent tag (dictSet tag ⟨[doc], [sent]⟩ data)
        (dictSet tag 1 counts) =
        some (dictSet tag ⟨appendIfAbsent doc [doc], appendIfAbsent sent [sent]⟩
                (dictSet tag ⟨[doc], [sent]⟩ data),
              dictSet tag 2 (dictSet tag 1 counts)) := by
      rw [update_data, hd1, hc1]
    have hself : appendIfAbsent doc [doc] = [doc] := by
      simp [appendIfAbsent]
    have hself2 : appendIfAbsent sent [sent] = [sent] := by
      simp [appendIfAbsent]
    exact ⟨_, _, _, _, h1, h2, dictGet?_dictSet_self tag _ _,
      by rw [hself, hself2]; exact dictGet?_dictSet_self tag _ _⟩

/-- Witness for C2: the double update on the fresh tag "cat". -/
theorem update_data_spec_witness :
    ∃ d1 c1 d2 c2, update_data "doc1.txt" "The cat sat." "cat" [] [] = some (d1, c1) ∧
      update_data "doc1.txt" "The cat sat." "cat" d1 c1 = some (d2, c2) ∧
      dictGet? "cat" c2 = some 2 ∧
      dictGet? "cat" d2 = some ⟨["doc1.txt"], ["The cat sat."]⟩ :=
  (update_data_spec "doc1.txt" "The cat sat." "cat" [] []).2.2 rfl

/-! ## C10: aggregation invariants -/

theorem appendIfAbsent_length (x : String) (xs : List String) :
    (appendIfAbsent x xs).length ≤ xs.length + 1 := by
  by_cases h : x ∈ xs <;> simp [appendIfAbsent, h]

theorem appendIfAbsent_nodup (x : String) (xs : List String) (h : xs.Nodup) :
    (appendIfAbsent x xs).Nodup := by
  by_cases hx : x ∈ xs
  · simpa [appendIfAbsent, hx] using h
  · simp [appendIfAbsent, hx, List.nodup_append, h]

theorem Inv_empty : Inv [] [] := by
  constructor
  · intro t
    simp [dictGet?]
  · intro t r c hr
    simp [dictGet?] at hr

theorem update_data_preserves_inv (doc sent tag : String)
    (data : List (String × TagRecord)) (counts : List (String × Nat)) (h : Inv data counts) :
    ∃ d' c', update_data doc sent tag data counts = some (d', c') ∧ Inv d' c' := by
  obtain ⟨hkeys, hrec⟩ := h
  cases hd : dictGet? tag data with
  | none =>
    refine ⟨_, _, by rw [update_data, hd], ?_, ?_⟩
    · intro t
      by_cases ht : t = tag
      · subst ht
        simp [dictGet?_dictSet_self]
      · rw [dictGet?_dictSet_ne t tag (Ne.symm ht), dictGet?_dictSet_ne t tag (Ne.symm ht)]
        exact hkeys t
    · intro t r c hr hc
      by_cases ht : t = tag
      · subst ht
        rw [dictGet?_dictSet_self] at hr hc
        injection hr with hr
        injection hc with hc
        subst hr
        subst hc
        refine ⟨le_refl 1, by simp, by simp, by simp, by simp⟩
      · rw [dictGet?_dictSet_ne t tag (Ne.symm ht)] at hr hc
        exact hrec t r c hr hc
  | some r0 =>
    have hc0' : (dictGet? tag counts).isSome := (hkeys tag).mp (by rw [hd]; rfl)
    obtain ⟨c0, hc0⟩ := Option.isSome_iff_exists.mp hc0'
    refine ⟨_, _, by rw [update_data, hd, hc0], ?_, ?_⟩
    · intro t
      by_cases ht : t = tag
      · subst ht
        simp [dictGet?_dictSet_self]
      · rw [dictGet?_dictSet_ne t tag (Ne.symm ht), dictGet?_dictSet_ne t tag (Ne.symm ht)]
        exact hkeys t
    · intro t r c hr hc
      obtain ⟨h1, h2, h3, h4, h5⟩ := hrec tag r0 c0 hd hc0
      by_cases ht : t = tag
      · subst ht
        rw [dictGet?_dictSet_self] at hr hc
        injection hr with hr
        injection hc with hc
        subst hr
        subst hc
        refine ⟨by omega, ?_, ?_, appendIfAbsent_nodup _ _ h4, appendIfAbsent_nodup _ _ h5⟩
        · have := appendIfAbsent_length doc r0.docs
          show (appendIfAbsent doc r0.docs).length ≤ c0 + 1
          omega
        · have := appendIfAbsent_length sent r0.sents
          show (appendIfAbsent sent r0.sents).length ≤ c0 + 1
          omega
      · rw [dictGet?_dictSet_ne t tag (Ne.symm ht)] at hr hc
        exact hrec t r c hr hc

theorem run_updates_aux (events : List (String × String × String))
    (data : List (String × TagRecord)) (counts : List (String × Nat)) (h : Inv data counts) :
    ∃ d' c',
      events.foldl (fun st e => st.bind (fun dc => update_data e.1 e.2.1 e.2.2 dc.1 dc.2))
        (some (data, counts)) = some (d', c') ∧ Inv d' c' := by
  induction events generalizing data counts with
  | nil => exact ⟨data, counts, rfl, h⟩
  | cons e es ih =>
    obtain ⟨d1, c1, h1, hinv1⟩ := update_data_preserves_inv e.1 e.2.1 e.2.2 data counts h
    rw [List.foldl_cons,
        show (some (data, counts)).bind (fun dc => update_data e.1 e.2.1 e.2.2 dc.1 dc.2) =
          some (d1, c1) from h1]
    exact ih d1 c1 hinv1

theorem filter_data_foldl_isSome (data : List (String × TagRecord)) (selected : List String) :
    (∀ t ∈ selected, (dictGet? t data).isSome) →
    ∀ acc : List (String × TagRecord),
      (List.foldl (fun acc t => acc.bind (fun m => (dictGet? t data).map (fun r => dictSet t r m)))
        (some acc) selected).isSome := by
  induction selected with
  | nil =>
    intro _ acc
    rfl
  | cons t ts ih =>
    intro h acc
    obtain ⟨r, hr⟩ := Option.isSome_iff_exists.mp (h t (List.mem_cons_self t ts))
    rw [List.foldl_cons,
        show (some acc).bind (fun m => (dictGet? t data).map (fun r => dictSet t r m)) =
          some (dictSet t r acc) by simp [hr]]
    exact ih (fun t' ht' => h t' (List.mem_cons_of_mem _ ht')) (dictSet t r acc)

/-- C10: from empty dictionaries, any sequence of `update_data` calls
succeeds (no `KeyError`), keeps `data` and `counts` on exactly the same
key set, keeps every count at least 1 and at least the length of each
of the record's duplicate-free `docs`/`sents` lists — so `filter_data`
is defined on every selection drawn from `counts`. -/
theorem run_updates_invariants (events : List (String × String × String)) :
    ∃ data counts, run_updates events = some (data, counts) ∧ Inv data counts ∧
      ∀ selected : List String, (∀ t ∈ selected, (dictGet? t counts).isSome) →
        (filter_data selected data).isSome := by
  obtain ⟨d, c, hrun, hinv⟩ := run_updates_aux events [] [] Inv_empty
  refine ⟨d, c, hrun, hinv, ?_⟩
  intro selected hsel
  exact filter_data_foldl_isSome d selected
    (fun t ht => (hinv.1 t).mpr (hsel t ht)) []

/-- Witness for C10 at a concrete event sequence and the empty
selection. -/
theorem run_updates_invariants_witness :
    ∃ data counts, run_updates [("doc1.txt", "The cat sat.", "cat")] = some (data, counts) ∧
      Inv data counts ∧ (filter_data [] data).isSome := by
  obtain ⟨d, c, h1, h2, h3⟩ := run_updates_invariants [("doc1.txt", "The cat sat.", "cat")]
  exact ⟨d, c, h1, h2, h3 [] (by simp)⟩

/-! ## C8: the custom stopword entries are not trimmed -/

/-- C8 counterexample: a custom-stopword line with leading whitespace
survives in its newline-stripped form, not its trimmed form: from the
single line "  route\n" the entry set contains "  route" and not
"route", though the claim requires the trimmed "route". -/
theorem stopword_trim_cex :
    stops_from_file_lines ["  route\n"] = ["  route"] ∧
    "route" ∉ stops_from_file_lines ["  route\n"] ∧
    "  route" ∈ stops_from_file_lines ["  route\n"] := by
  refine ⟨by decide, by decide, by decide⟩

theorem string_ne_empty_iff_length_pos (s : String) : s ≠ "" ↔ 0 < s.length := by
  rw [Ne, String.ext_iff]
  show ¬ s.data = ([] : List Char) ↔ 0 < s.data.length
  exact Iff.symm List.length_pos

theorem keepStopLine_iff (l : String) :
    keepStopLine l = true ↔ ¬ pyStartsWithHash (pyStrip l) = true ∧ pyStrip l ≠ "" := by
  rw [keepStopLine, Bool.and_eq_true, Bool.not_eq_true', decide_eq_true_iff,
      string_ne_empty_iff_length_pos]
  constructor
  · rintro ⟨h1, h2⟩
    exact ⟨by simp [h1], h2⟩
  · rintro ⟨h1, h2⟩
    exact ⟨Bool.not_eq_true _ ▸ h1, h2⟩

/-- C8 (amended): the run's stopword set is the union of the built-in
list and, when a custom file is supplied, one entry per line whose
whitespace-trimmed form is nonempty and does not start with '#'; that
entry is the line with only trailing newline characters removed — its
leading/trailing spaces are preserved, and no case-folding is
applied. -/
theorem build_stopword_list_amended (builtin lines : List String) (s : String) :
    (build_stopword_list builtin none = builtin) ∧
    (s ∈ build_stopword_list builtin (some lines) ↔
      s ∈ builtin ∨ ∃ l ∈ lines, ¬ pyStartsWithHash (pyStrip l) = true ∧ pyStrip l ≠ "" ∧
        s = pyRstripNewline l) := by
  refine ⟨rfl, ?_⟩
  show s ∈ builtin ++ stops_from_file_lines lines ↔ _
  rw [List.mem_append]
  refine or_congr Iff.rfl ?_
  rw [stops_from_file_lines]
  constructor
  · intro hs
    obtain ⟨l, hl, rfl⟩ := List.mem_map.mp hs
    obtain ⟨hmem, hkeep⟩ := List.mem_filter.mp hl
    obtain ⟨h1, h2⟩ := (keepStopLine_iff l).mp hkeep
    exact ⟨l, hmem, h1, h2, rfl⟩
  · rintro ⟨l, hl, h1, h2, rfl⟩
    exact List.mem_map_of_mem _ (List.mem_filter.mpr ⟨hl, (keepStopLine_iff l).mpr ⟨h1, h2⟩⟩)

/-! ## C9: the fatal-error branches crash before printing -/

/-- C9 (code bug): on an invalid input directory or invalid custom
stopword file, the error branch evaluates `"..." % path` where `path`
is bound neither locally nor at module level, so it raises an uncaught
`NameError` — the interpreter still exits non-zero, but the documented
message naming the offending path is never printed and `sys.exit(-1)`
is never reached. -/
theorem invalid_path_bug :
    get_files_invalid_dir "/no/such/dir" "txt" = Outcome.uncaught "NameError" ∧
    stops_from_file_invalid "/no/such/stops.txt" = Outcome.uncaught "NameError" ∧
    (∀ msg code, get_files_invalid_dir "/no/such/dir" "txt" ≠ Outcome.fatal msg code) ∧
    (∀ msg code, stops_from_file_invalid "/no/such/stops.txt" ≠ Outcome.fatal msg code) := by
  refine ⟨by decide, by decide, ?_, ?_⟩
  · intro msg code h
    rw [show get_files_invalid_dir "/no/such/dir" "txt" = Outcome.uncaught "NameError" from
      by decide] at h
    exact Outcome.noConfusion h
  · intro msg code h
    rw [show stops_from_file_invalid "/no/such/stops.txt" = Outcome.uncaught "NameError" from
      by decide] at h
    exact Outcome.noConfusion h

end Hashgen
